import Mathlib

/-!
Verification of the kaufmannGPT performance-loop core.

This file is a shallow embedding, in Lean 4, of the control-flow and
data-assembly logic of `src/joke_generator/realtime_generator.py` and
`src/api/joke_service.py`:

* the streaming response collector (`_collect_joke_response`),
* the post-collection turn finalisation in `generate_and_deliver_joke`
  (empty-text failure, history append),
* the signal fuser (`_format_crowd_description` and its inner
  `map_vibe` / `map_faces` / `map_sound` helpers),
* the verdict-to-label mapping of the `/generate/auto` endpoint,
* the planner sanitisation pipeline (`_sanitize_planned_text`,
  `_contains_reactive`, and the retry control flow of `_plan_with_gpt5`),
* the cold-open branch of `generate_and_deliver_joke`,
* the per-session statistics (`get_performance_stats` and the `/stats`
  endpoint's response model),
* a trace semantics for the turn lock held around every duplex-channel
  operation of `generate_and_deliver_joke` (single-flight).

Python dictionaries are embedded as association lists of `String × PyVal`,
so that presence and absence of dictionary keys is directly statable.
String manipulation is embedded over `List Char` with explicit helper
functions mirroring the Python string methods that the source uses.
-/

set_option autoImplicit false

/-- Values stored in the embedded Python dictionaries. `pynone` models
Python `None`; `rat` models a Python float by the exact rational the
source computes (the statistics code divides two integers). -/
inductive PyVal where
  | str (s : String)
  | bytes (b : List Nat)
  | bool (b : Bool)
  | int (n : Nat)
  | rat (q : ℚ)
  | pynone
  | strList (l : List String)
  deriving DecidableEq

/-- A Python dict, embedded as an association list (first match wins). -/
abbrev PyDict := List (String × PyVal)

/-- `d.get(k)`: first value bound to `k`, if any. -/
def dlookup (k : String) : PyDict → Option PyVal
  | [] => Option.none
  | (k', v) :: rest => if k' = k then some v else dlookup k rest

/-- `d[k] = v`: replace the binding for `k` if present, else append it. -/
def dictSet (d : PyDict) (k : String) (v : PyVal) : PyDict :=
  if d.any (fun p => p.1 = k) then
    d.map (fun p => if p.1 = k then (k, v) else p)
  else d ++ [(k, v)]

/-- Python truthiness of an optional dict value (`None` and empty values
are falsy), as used by `if not joke_data.get('text')`. -/
def pyTruthy : Option PyVal → Bool
  | Option.none => false
  | some (PyVal.str s) => s ≠ ""
  | some (PyVal.bytes b) => b ≠ []
  | some (PyVal.bool b) => b
  | some (PyVal.int n) => n ≠ 0
  | some (PyVal.rat q) => q ≠ 0
  | some PyVal.pynone => false
  | some (PyVal.strList l) => l ≠ []

/-- Python `a or b` on an optional string `a` (`None` and `""` are falsy). -/
def pyOrOpt (o : Option String) (s : String) : String :=
  match o with
  | some t => if t = "" then s else t
  | Option.none => s

/-- Python `a or b` on two strings (`""` is falsy). -/
def pyStrOr (a b : String) : String := if a = "" then b else a

/-- Python `a or b` where both operands are optional strings. -/
def pyOrOpt2 (a b : Option String) : Option String :=
  match a with
  | some t => if t = "" then b else some t
  | Option.none => b

/-- Whitespace test used to model Python `strip()` and `lstrip()`. -/
def isWs (c : Char) : Bool :=
  c = ' ' || c = '\t' || c = '\n' || c = '\r'

/-- Remove trailing characters satisfying `p` (right-hand side of
Python `strip()` / `rstrip`). -/
def trimTrailing (p : Char → Bool) : List Char → List Char
  | [] => []
  | c :: rest =>
    let r := trimTrailing p rest
    if r = [] && p c then [] else c :: r

/-- Python `str.strip()` over a character list. -/
def listTrim (l : List Char) : List Char :=
  trimTrailing isWs (l.dropWhile isWs)

/-- Python `str.strip()`. -/
def strTrim (s : String) : String := String.mk (listTrim s.data)

/-- Python `str.lower()` (ASCII case, which is all the source feeds it). -/
def strLower (s : String) : String := String.mk (s.data.map Char.toLower)

/-- Substring test: `needle` occurs contiguously in `hay`
(Python `needle in hay`). -/
def containsSub (needle : List Char) : List Char → Bool
  | [] => needle.isEmpty
  | c :: rest => needle.isPrefixOf (c :: rest) || containsSub needle rest

/-- Python `needle in hay` on strings. -/
def strContains (hay needle : String) : Bool :=
  containsSub needle.data hay.data

/-- One parsed event from the duplex channel, as dispatched on by
`_collect_joke_response.collect_messages`. Each constructor covers the
two wire tag aliases the source accepts (for example `textDelta` stands
for both `response.text.delta` and `response.output_text.delta`); the
`audioDelta` payload is the base64-decoded chunk; `otherEvent` stands
for any event type the loop ignores. -/
inductive RtEvent where
  | textDelta (delta : String)
  | textDone (text : String)
  | audioDelta (bytes : List Nat)
  | audioDone
  | transcriptDelta (delta : String)
  | transcriptDone (transcript : String)
  | responseDone
  | errorEvent
  | otherEvent (tag : String)
  deriving DecidableEq

/-- Accumulator state of the collection loop: the closure variables
`joke_text_parts`, `transcript_parts`, `text_done`, `transcript_done`,
and `audio_chunks`. -/
structure CollectState where
  jokeTextParts : List String
  transcriptParts : List String
  textDoneVal : Option String
  transcriptDoneVal : Option String
  audioChunks : List (List Nat)
  deriving DecidableEq

/-- Initial collection state. -/
def initCollect : CollectState := ⟨[], [], Option.none, Option.none, []⟩

/-- Events on which the collection loop breaks: `response.done` /
`response.completed`, and `error`. -/
def isTerminalEvent : RtEvent → Bool
  | RtEvent.responseDone => true
  | RtEvent.errorEvent => true
  | _ => false

/-- Effect of one non-terminal event on the accumulators, exactly as in
the `collect_messages` loop body.  A `textDone` with an empty payload
stores the concatenation of the deltas seen so far
(`event.get('text', '') or ''.join(joke_text_parts)`); a
`transcriptDone` stores its payload unconditionally; an empty audio
delta is skipped (`if audio_b64:`). -/
def collectStep (st : CollectState) : RtEvent → CollectState
  | RtEvent.textDelta d =>
      ⟨st.jokeTextParts ++ [d], st.transcriptParts, st.textDoneVal,
        st.transcriptDoneVal, st.audioChunks⟩
  | RtEvent.textDone t =>
      ⟨st.jokeTextParts, st.transcriptParts,
        some (if t = "" then String.join st.jokeTextParts else t),
        st.transcriptDoneVal, st.audioChunks⟩
  | RtEvent.audioDelta b =>
      if b = [] then st
      else ⟨st.jokeTextParts, st.transcriptParts, st.textDoneVal,
        st.transcriptDoneVal, st.audioChunks ++ [b]⟩
  | RtEvent.audioDone => st
  | RtEvent.transcriptDelta d =>
      ⟨st.jokeTextParts, st.transcriptParts ++ [d], st.textDoneVal,
        st.transcriptDoneVal, st.audioChunks⟩
  | RtEvent.transcriptDone t =>
      ⟨st.jokeTextParts, st.transcriptParts, st.textDoneVal, some t,
        st.audioChunks⟩
  | RtEvent.responseDone => st
  | RtEvent.errorEvent => st
  | RtEvent.otherEvent _ => st

/-- Run the collection loop over the events that arrived, stopping
(without a state change) at the first terminal event. -/
def collectRun (st : CollectState) : List RtEvent → CollectState
  | [] => st
  | e :: es => if isTerminalEvent e then st else collectRun (collectStep st e) es

/-- Final text of a collection, following `_collect_joke_response`:
on the normal path `text_done[0] or ''.join(joke_text_parts)` (same for
the transcript), on the timeout path only the delta concatenations; the
returned value is `joke_text or transcript`. `timedOut` is true when
`asyncio.wait_for` expired before the loop finished. -/
def collectFinalText (events : List RtEvent) (timedOut : Bool) : String :=
  let st := collectRun initCollect events
  let jokeText :=
    if timedOut then String.join st.jokeTextParts
    else pyOrOpt st.textDoneVal (String.join st.jokeTextParts)
  let transcript :=
    if timedOut then String.join st.transcriptParts
    else pyOrOpt st.transcriptDoneVal (String.join st.transcriptParts)
  pyStrOr jokeText transcript

/-- Concatenated audio of a collection (`b''.join(audio_chunks)`). -/
def collectAudio (events : List RtEvent) : List Nat :=
  (collectRun initCollect events).audioChunks.flatten

/-- The dictionary `_collect_joke_response` returns: keys `text`,
`audio`, `has_audio` and `timestamp`, and no others.  `now` stands for
`datetime.now().isoformat()`. -/
def collect_joke_response (events : List RtEvent) (timedOut : Bool)
    (now : String) : PyDict :=
  [("text", PyVal.str (collectFinalText events timedOut)),
   ("audio", PyVal.bytes (collectAudio events)),
   ("has_audio", PyVal.bool (decide (0 < (collectAudio events).length))),
   ("timestamp", PyVal.str now)]

/-- Specification-side view: the text deltas of a stream, in order. -/
def textDeltasOf (es : List RtEvent) : List String :=
  es.filterMap (fun e => match e with
    | RtEvent.textDelta d => some d
    | _ => Option.none)

/-- Specification-side view: the transcript deltas of a stream, in order. -/
def transcriptDeltasOf (es : List RtEvent) : List String :=
  es.filterMap (fun e => match e with
    | RtEvent.transcriptDelta d => some d
    | _ => Option.none)

/-- Specification-side view: the audio bytes of a stream, in arrival
order. -/
def audioBytesOf (es : List RtEvent) : List Nat :=
  (es.filterMap (fun e => match e with
    | RtEvent.audioDelta b => some b
    | _ => Option.none)).flatten

/-- The events the loop actually processes: the prefix before the first
terminal event. -/
def processedOf (es : List RtEvent) : List RtEvent :=
  es.takeWhile (fun e => !isTerminalEvent e)

/-- Payload of the last `textDone` event of a stream, if any. -/
def lastTextDonePayload (cur : Option String) : List RtEvent → Option String
  | [] => cur
  | RtEvent.textDone t :: es => lastTextDonePayload (some t) es
  | _ :: es => lastTextDonePayload cur es

/-- Payload of the last `transcriptDone` event of a stream, if any. -/
def lastTranscriptDonePayload (cur : Option String) :
    List RtEvent → Option String
  | [] => cur
  | RtEvent.transcriptDone t :: es => lastTranscriptDonePayload (some t) es
  | _ :: es => lastTranscriptDonePayload cur es

/-- Tail of `generate_and_deliver_joke` (lines 454-464): given the
collected dictionary, raise `ValueError("No text generated by Realtime
API")` when the text is falsy, otherwise set `audience_reaction` and
`theme` on the artifact, append it to `performance_history`, and return
it.  The first component is the performance history after the call
(unchanged when the error propagates, since the raise precedes the
append). -/
def applyCollectedJoke (history : List PyDict) (jd : PyDict)
    (audienceReaction : Option String) (theme : String) :
    List PyDict × Except String PyDict :=
  if pyTruthy (dlookup "text" jd) then
    let jd1 := dictSet jd "audience_reaction"
      (match audienceReaction with
        | some s => PyVal.str s
        | Option.none => PyVal.pynone)
    let jd2 := dictSet jd1 "theme" (PyVal.str theme)
    (history ++ [jd2], Except.ok jd2)
  else (history, Except.error "No text generated by Realtime API")

/-- The `visual_latest` sub-dictionary of an audience context. -/
structure VisualLatest where
  visual_verdict : Option String
  notes : Option String
  deriving DecidableEq

/-- The `audio_latest` sub-dictionary of an audience context. -/
structure AudioLatest where
  verdict : Option String
  reaction_type : Option String
  rationale : Option String
  deriving DecidableEq

/-- The fields of an audience-context dictionary that
`_format_crowd_description` reads through `ctx`. -/
structure CrowdCtx where
  visual_latest : Option VisualLatest
  audio_latest : Option AudioLatest
  fused_reaction : Option String
  deriving DecidableEq

/-- The audience-context dictionary passed by `/generate/auto` into
`generate_and_deliver_joke` (and read both by the verdict-to-label
mapping and by `_format_crowd_description`).  A missing key, and an
empty sub-dictionary (both falsy under Python `or`), are modelled as
`Option.none`. -/
structure AudienceContext where
  context : Option CrowdCtx
  visual_latest : Option VisualLatest
  audio_latest : Option AudioLatest
  fused_reaction : Option String
  verdict : Option String
  reaction_type : Option String
  rationale : Option String
  deriving DecidableEq

/-- `map_vibe` inside `_format_crowd_description`:
`m.get(fused, fused or 'neutral')`. -/
def map_vibe (fused : String) : String :=
  if fused = "big laugh / applause" then "lively"
  else if fused = "small laugh / chatter" then "warm"
  else if fused = "silence / groan" then "quiet"
  else if fused = "confusion" then "puzzled"
  else if fused = "neutral" then "neutral"
  else if fused = "" then "neutral"
  else fused

/-- `map_faces` inside `_format_crowd_description`. -/
def map_faces (verdict : Option String) : String :=
  let v := strLower (pyOrOpt verdict "")
  if v = "laughing" then "smiles up"
  else if v = "enjoying" then "a few smiles"
  else if v = "scattered" then "attention scattered"
  else if v = "neutral" || v = "" then "calm"
  else if v = "uncertain" then "mixed signals"
  else v

/-- `map_sound` inside `_format_crowd_description`: a fixed table on the
lower-cased verdict, then a keyword scan of the rationale, then
`v or 'neutral'`. -/
def map_sound (verdict : Option String) (rationale : Option String) : String :=
  let v := strLower (pyOrOpt verdict "")
  if v = "hit" then "laughter heard"
  else if v = "mixed" then "light laughs"
  else if v = "miss" then "quiet"
  else if v = "uncertain" then "unclear"
  else
    let r := strLower (pyOrOpt rationale "")
    if strContains r "laugh" then "laughter"
    else if strContains r "silent" || strContains r "quiet" then "quiet"
    else pyStrOr v "neutral"

/-- Python `s[:70].rstrip('.')` over a character list. -/
def truncNote (l : List Char) : List Char :=
  trimTrailing (fun c => c = '.') (l.take 70)

/-- `_format_crowd_description`: the compact crowd line embedded into the
instructions and the conversation input. -/
def format_crowd_description (ac : Option AudienceContext)
    (audienceReaction : Option String) : String :=
  match ac with
  | Option.none => "vibe: " ++ pyOrOpt audienceReaction "neutral" ++ "."
  | some a =>
    let ctx : CrowdCtx :=
      a.context.getD ⟨a.visual_latest, a.audio_latest, a.fused_reaction⟩
    let visual : VisualLatest :=
      (ctx.visual_latest.orElse (fun _ => a.visual_latest)).getD
        ⟨Option.none, Option.none⟩
    let audioL : AudioLatest :=
      (ctx.audio_latest.orElse (fun _ => a.audio_latest)).getD
        ⟨Option.none, Option.none, Option.none⟩
    let fused := strLower (strTrim (pyOrOpt ctx.fused_reaction
      (pyOrOpt a.fused_reaction (pyOrOpt audienceReaction ""))))
    let vibe := map_vibe fused
    let faces := map_faces visual.visual_verdict
    let sound := map_sound (pyOrOpt2 audioL.verdict audioL.reaction_type)
      audioL.rationale
    let note0 := strTrim (pyOrOpt visual.notes "")
    let note :=
      if note0 = "" then ""
      else " " ++ String.mk (truncNote note0.data) ++ "."
    "vibe: " ++ vibe ++ "; faces: " ++ faces ++ "; sound: " ++ sound ++ "."
      ++ note

/-- The verdict-to-label mapping at the top of the `/generate/auto`
endpoint (`generate_joke_auto`, lines 269-280): the four recognised
verdicts map to fixed labels; anything else falls back to
`audience_data.get('reaction_type', 'neutral')`. -/
def mapVerdictLabel (d : AudienceContext) : String :=
  if d.verdict = some "hit" then "big laugh / applause"
  else if d.verdict = some "mixed" then "small laugh / chatter"
  else if d.verdict = some "miss" then "silence / groan"
  else if d.verdict = some "uncertain" then "confusion"
  else d.reaction_type.getD "neutral"

/-- The hardcoded cold-open fallback line of `generate_and_deliver_joke`. -/
def fallbackOpenerText : String :=
  "I know what you’re thinking—an AI comic? Don’t worry, I only crash if you laugh too hard. Let’s test my error handling with something fun."

/-- The `input_text` payloads of the `conversation.item.create` messages
sent by `generate_and_deliver_joke`, in order.  First turn (empty
performance history): a single `PLANNED_JOKE` item built from the
pre-planned opener or, when planning failed, the hardcoded fallback
line.  Later turns: the crowd description item, then an optional
`PLANNED_JOKE` item. -/
def conversationInputs (history : List PyDict) (plannedOpener : Option String)
    (plannedJoke : Option String) (ac : Option AudienceContext)
    (audienceReaction : Option String) : List String :=
  if history.length = 0 then
    ["PLANNED_JOKE: " ++ pyOrOpt plannedOpener fallbackOpenerText]
  else
    ("crowd, visual and audio description: "
        ++ format_crowd_description ac audienceReaction ++ ".")
      :: (match plannedJoke with
          | some p => ["PLANNED_JOKE: " ++ p]
          | Option.none => [])

/-- Terminal sentence punctuation (`'.!?'`). -/
def isTermPunct (c : Char) : Bool :=
  c = '.' || c = '!' || c = '?'

/-- The leading filler phrases stripped by `_sanitize_planned_text`,
in source order. -/
def fillerList : List String :=
  ["Alright, ", "Okay, ", "Well, ", "So, ", "Look, ", "I see, ", "Let\x27s "]

/-- One left-to-right pass over the filler list:
`if t.startswith(f): t = t[len(f):].lstrip()` for each filler in turn. -/
def stripFillers (l : List Char) : List Char :=
  fillerList.foldl
    (fun t f =>
      if f.data.isPrefixOf t then (t.drop f.data.length).dropWhile isWs else t)
    l

/-- Worker for `replaceList`: when `skip` is positive the character
belongs to an already-matched occurrence and is dropped. -/
def replaceGo (p : Char) (ps rep : List Char) : List Char → Nat → List Char
  | [], _ => []
  | _ :: rest, skip + 1 => replaceGo p ps rep rest skip
  | c :: rest, 0 =>
    if (p :: ps).isPrefixOf (c :: rest) then
      rep ++ replaceGo p ps rep rest ps.length
    else c :: replaceGo p ps rep rest 0

/-- Python `str.replace(pat, rep)` for a nonempty pattern `p :: ps`:
replace every non-overlapping occurrence, scanning left to right. -/
def replaceList (p : Char) (ps : List Char) (rep : List Char)
    (l : List Char) : List Char :=
  replaceGo p ps rep l 0

/-- The sentence-splitting loop of `_sanitize_planned_text`: accumulate
characters into `current`, flush (stripped, if nonempty) at each
terminal punctuation mark, flush the stripped remainder at the end. -/
def splitSentencesGo (current : List Char) : List Char → List (List Char)
  | [] =>
    let s := listTrim current
    if s = [] then [] else [s]
  | c :: rest =>
    let cur := current ++ [c]
    if isTermPunct c then
      let s := listTrim cur
      (if s = [] then [] else [s]) ++ splitSentencesGo [] rest
    else splitSentencesGo cur rest

/-- `' '.join(sentences[:2])`. -/
def joinSpace : List (List Char) → List Char
  | [] => []
  | [a] => a
  | a :: b :: _ => a ++ [' '] ++ b

/-- `if out and out[-1] not in '.!?': out += '.'`. -/
def ensureEndPunct (l : List Char) : List Char :=
  match l.getLast? with
  | Option.none => l
  | some c => if isTermPunct c then l else l ++ ['.']

/-- `_sanitize_planned_text`: strip, single-pass filler stripping,
newline and double-space flattening, keep the first two sentences split
on terminal punctuation, ensure a trailing terminal mark. -/
def sanitize_planned_text (text : String) : String :=
  if text = "" then text
  else
    let t := stripFillers (listTrim text.data)
    let flat := replaceList ' ' [' '] [' '] (replaceList '\n' [] [' '] t)
    let sentences := splitSentencesGo [] flat
    let out := listTrim (joinSpace (sentences.take 2))
    String.mk (ensureEndPunct out)

/-- The banned phrase list of `_contains_reactive`. -/
def bannedPhrases : List String :=
  ["crowd", "audience", "room", "smile", "applause", "buffer", "buffering",
   "download", "airplane mode", "notification", "meditation app", "we got",
   "we\x27ve got", "feels like", "lost you", "reboot the fun"]

/-- `_contains_reactive`: case-insensitive substring scan of the banned
phrase list. -/
def contains_reactive (text : String) : Bool :=
  if text = "" then false
  else bannedPhrases.any (fun b => strContains (strLower text) b)

/-- A request the planner makes against the chat-completions endpoint:
the main prompt (with or without the `reasoning` parameter) or the
guarded retry prompt (which never carries `reasoning`). -/
inductive PlanReq where
  | mainReq (withReasoning : Bool)
  | guardedReq
  deriving DecidableEq

/-- Outcome of inspecting one oracle response inside `_plan_with_gpt5`:
no usable response (non-200 status or a raised exception), a rejected
candidate (empty content, empty sanitised text, or a banned phrase), or
an accepted sanitised candidate. -/
inductive AttemptOut where
  | noResp
  | rejected
  | accepted (s : String)
  deriving DecidableEq

/-- `text = content.strip(); cleaned = sanitize(text) if text else None;
if cleaned and not contains_reactive(cleaned): return cleaned`. -/
def evalPlanResp (resp : Option String) : AttemptOut :=
  match resp with
  | Option.none => AttemptOut.noResp
  | some raw =>
    let text := strTrim raw
    if text = "" then AttemptOut.rejected
    else
      let cleaned := sanitize_planned_text text
      if cleaned = "" then AttemptOut.rejected
      else if contains_reactive cleaned then AttemptOut.rejected
      else AttemptOut.accepted cleaned

/-- One payload iteration of `_plan_with_gpt5`'s outer loop: the main
request, and — only when the main request yielded a rejected candidate —
one guarded retry.  Returns the accepted text (if any), the requests
issued, and the next oracle call index. -/
def planAttempt (rs : Nat → Option String) (n : Nat) (withReasoning : Bool) :
    Option String × List PlanReq × Nat :=
  match evalPlanResp (rs n) with
  | AttemptOut.accepted s =>
      (some s, [PlanReq.mainReq withReasoning], n + 1)
  | AttemptOut.noResp =>
      (Option.none, [PlanReq.mainReq withReasoning], n + 1)
  | AttemptOut.rejected =>
      match evalPlanResp (rs (n + 1)) with
      | AttemptOut.accepted s =>
          (some s, [PlanReq.mainReq withReasoning, PlanReq.guardedReq], n + 2)
      | _ =>
          (Option.none,
            [PlanReq.mainReq withReasoning, PlanReq.guardedReq], n + 2)

/-- `_plan_with_gpt5` over an oracle `rs` giving the outcome of the
`n`-th HTTP call (`Option.none` models a non-200 status or an
exception): try the payload with the `reasoning` parameter, then — if no
candidate was accepted — the payload without it; each payload gets one
guarded retry after a rejected candidate.  Returns the planned text (or
`Option.none`) together with the trace of requests issued. -/
def plan_with_gpt5 (rs : Nat → Option String) : Option String × List PlanReq :=
  match planAttempt rs 0 true with
  | (some s, tr, _) => (some s, tr)
  | (Option.none, tr1, n1) =>
    match planAttempt rs n1 false with
    | (some s, tr2, _) => (some s, tr1 ++ tr2)
    | (Option.none, tr2, _) => (Option.none, tr1 ++ tr2)

/-- Number of guarded-retry requests in a planner trace. -/
def countGuarded (l : List PlanReq) : Nat :=
  (l.filter (fun r => r = PlanReq.guardedReq)).length

/-- `j.get('theme', 'unknown')` on a history entry. -/
def themeOf (j : PyDict) : String :=
  match dlookup "theme" j with
  | some (PyVal.str s) => s
  | _ => "unknown"

/-- Whether a history entry counts as laughing
(`j.get('audience_reaction') == 'laughing'`). -/
def isLaughing (j : PyDict) : Bool :=
  dlookup "audience_reaction" j = some (PyVal.str "laughing")

/-- `get_performance_stats`: with an empty history, exactly the three
keys `total_jokes`, `themes`, `audience_engagement`; otherwise four keys
including `engagement_rate`.  The engagement rate is modelled by the
exact rational `laughing_count / len(history)`; `list(set(...))` is
modelled by `dedup` (the claimaints only inspect the empty case, where
set iteration order is irrelevant). -/
def get_performance_stats (history : List PyDict) : PyDict :=
  if history = [] then
    [("total_jokes", PyVal.int 0),
     ("themes", PyVal.strList []),
     ("audience_engagement", PyVal.str "unknown")]
  else
    let laughingCount := (history.filter isLaughing).length
    let n := history.length
    let rate : ℚ := (laughingCount : ℚ) / (n : ℚ)
    [("total_jokes", PyVal.int n),
     ("themes", PyVal.strList ((history.map themeOf).dedup)),
     ("engagement_rate", PyVal.rat rate),
     ("audience_engagement",
       PyVal.str (if rate > 6/10 then "high"
         else if rate > 3/10 then "medium" else "low"))]

/-- Validation of the `PerformanceStatsResponse` pydantic model declared
in `joke_service.py` (lines 86-90): all four declared fields are
required, so constructing it from a dictionary missing one of them
raises.  Field-requiredness follows pydantic's semantics for the
declared model. -/
def performanceStatsResponseOk (d : PyDict) : Bool :=
  (match dlookup "total_jokes" d with
    | some (PyVal.int _) => true | _ => false) &&
  (match dlookup "themes" d with
    | some (PyVal.strList _) => true | _ => false) &&
  (match dlookup "engagement_rate" d with
    | some (PyVal.rat _) => true | _ => false) &&
  (match dlookup "audience_engagement" d with
    | some (PyVal.str _) => true | _ => false)

/-- The `/stats` endpoint: build `PerformanceStatsResponse(**stats)`;
a validation failure is caught and surfaced as an HTTP 500 error. -/
def get_stats (history : List PyDict) : Except String PyDict :=
  let s := get_performance_stats history
  if performanceStatsResponseOk s then Except.ok s
  else Except.error "HTTP 500: validation error"

/-- Modelled from the spec: the escalation state machine exists in the
repository only as the natural-language `CLASSIFICATION` and `EVOLVING
STRATEGY LADDER` instructions inside `_build_instructions` (lines
191-199); there is no executable `consecutive_miss_count` in the source.
Verdict classes are the spec's `{HIT, PARTIAL, MISS}` (`part` stands for
PARTIAL). -/
inductive VerdictClass where
  | hit
  | part
  | miss
  deriving DecidableEq

/-- Modelled from the spec: the strategy tiers of the escalation ladder. -/
inductive Tier where
  | baseline
  | switchEngine
  | callbackOrEscalate
  | roast
  deriving DecidableEq

/-- Modelled from the spec: the tier as a step function of the
consecutive-miss count (0, 1, 2, at least 3). -/
def tierOf (n : Nat) : Tier :=
  if n = 0 then Tier.baseline
  else if n = 1 then Tier.switchEngine
  else if n = 2 then Tier.callbackOrEscalate
  else Tier.roast

/-- Modelled from the spec: the escalation state. -/
structure EscalationState where
  consecutiveMisses : Nat
  tier : Tier
  deriving DecidableEq

/-- Modelled from the spec: one classification step — `MISS` increments
the consecutive-miss count, `HIT` and `PARTIAL` reset it to 0, and the
tier is recomputed from the new count. -/
def escStep (st : EscalationState) (c : VerdictClass) : EscalationState :=
  let m := match c with
    | VerdictClass.miss => st.consecutiveMisses + 1
    | _ => 0
  ⟨m, tierOf m⟩

/-- Modelled from the spec: the initial escalation state of a session. -/
def escInit : EscalationState := ⟨0, Tier.baseline⟩

/-- Modelled from the spec: the escalation state after a sequence of
verdict classifications. -/
def runEsc (st : EscalationState) (cs : List VerdictClass) : EscalationState :=
  cs.foldl escStep st

/-- A duplex-channel operation performed by `generate_and_deliver_joke`
while holding `self._lock`: session setup (`connect`,
`configure_session`), the `conversation.item.create` sends, the
`response.create` request, and each `await` of the next event during
collection. -/
inductive ChanOp where
  | connectWs
  | configureSession
  | sendOpenerItem
  | sendCrowdItem
  | sendPlannedItem
  | requestResponse
  | recvEvent
  deriving DecidableEq

/-- One step of a `generate_and_deliver_joke` invocation as scheduled on
the event loop: acquiring the turn lock, a channel operation, or
releasing the lock. -/
inductive TStep where
  | acquire
  | chan (op : ChanOp)
  | release
  deriving DecidableEq

/-- The branch shape of one invocation of `generate_and_deliver_joke`:
whether it connects and configures the session, whether it is the cold
open, whether a planned joke item is sent, and how many events the
collection loop awaits. -/
structure TurnShape where
  needsConnect : Bool
  needsConfigure : Bool
  firstTurn : Bool
  hasPlannedJoke : Bool
  numEvents : Nat
  deriving DecidableEq

/-- The channel operations of one `generate_and_deliver_joke`
invocation, in program order (lines 389-455 of
`realtime_generator.py`). -/
def turnChanOps (p : TurnShape) : List ChanOp :=
  (if p.needsConnect then [ChanOp.connectWs] else [])
    ++ (if p.needsConfigure then [ChanOp.configureSession] else [])
    ++ (if p.firstTurn then [ChanOp.sendOpenerItem]
        else ChanOp.sendCrowdItem ::
          (if p.hasPlannedJoke then [ChanOp.sendPlannedItem] else []))
    ++ [ChanOp.requestResponse]
    ++ List.replicate p.numEvents ChanOp.recvEvent

/-- The full step sequence of one invocation: every channel operation of
the turn happens between `async with self._lock` entry and exit. -/
def turnSteps (p : TurnShape) : List TStep :=
  TStep.acquire :: (turnChanOps p).map TStep.chan ++ [TStep.release]

/-- `interleavesB t as bs` holds when trace `t` (steps tagged with the
invocation they belong to, `false` for the first) is an interleaving of
the step sequences `as` and `bs` that preserves each invocation's
program order. -/
def interleavesB : List (Bool × TStep) → List TStep → List TStep → Bool
  | [], as, bs => as.isEmpty && bs.isEmpty
  | (false, x) :: t, a :: as, bs =>
    if x = a then interleavesB t as bs else false
  | (false, _) :: _, [], _ => false
  | (true, x) :: t, as, b :: bs =>
    if x = b then interleavesB t as bs else false
  | (true, _) :: _, _, [] => false

/-- `lockOkB h t`: trace `t` respects the semantics of `asyncio.Lock`
starting from holder `h` — an acquire is only scheduled when the lock is
free (a waiter stays suspended otherwise), and only the holder
releases.  Channel steps are unconstrained by the lock itself. -/
def lockOkB : Option Bool → List (Bool × TStep) → Bool
  | _, [] => true
  | Option.none, (t, TStep.acquire) :: r => lockOkB (some t) r
  | Option.none, (_, TStep.chan _) :: r => lockOkB Option.none r
  | Option.none, (_, TStep.release) :: _ => false
  | some _, (_, TStep.acquire) :: _ => false
  | some h, (u, TStep.release) :: r =>
    if h = u then lockOkB Option.none r else false
  | some h, (_, TStep.chan _) :: r => lockOkB (some h) r

/-- Tag every step of a sequence with its invocation. -/
def tagT (b : Bool) (l : List TStep) : List (Bool × TStep) :=
  l.map (fun s => (b, s))

theorem runEsc_append_one (st : EscalationState) (cs : List VerdictClass)
    (c : VerdictClass) : runEsc st (cs ++ [c]) = escStep (runEsc st cs) c := by
  simp [runEsc, List.foldl_append]

theorem runEsc_tier_invariant (cs : List VerdictClass) (st : EscalationState)
    (h : st.tier = tierOf st.consecutiveMisses) :
    (runEsc st cs).tier = tierOf (runEsc st cs).consecutiveMisses := by
  induction cs generalizing st with
  | nil => exact h
  | cons c cs ih =>
    have : runEsc st (c :: cs) = runEsc (escStep st c) cs := rfl
    rw [this]
    exact ih (escStep st c) rfl

/-- Claim C5 (spec-modelled): for every sequence of verdict
classifications, a `MISS` increments `consecutiveMisses` by one, a `HIT`
or `PARTIAL` resets it to exactly 0, and `tier` is the deterministic
step function of `consecutiveMisses` (0 baseline, 1 switchEngine,
2 callbackOrEscalate, at least 3 roast). -/
theorem escalation_state_invariant (cs : List VerdictClass) :
    (runEsc escInit (cs ++ [VerdictClass.miss])).consecutiveMisses
        = (runEsc escInit cs).consecutiveMisses + 1
      ∧ (runEsc escInit (cs ++ [VerdictClass.hit])).consecutiveMisses = 0
      ∧ (runEsc escInit (cs ++ [VerdictClass.part])).consecutiveMisses = 0
      ∧ (runEsc escInit cs).tier
        = tierOf (runEsc escInit cs).consecutiveMisses := by
  refine ⟨?_, ?_, ?_, ?_⟩
  · rw [runEsc_append_one]; rfl
  · rw [runEsc_append_one]; rfl
  · rw [runEsc_append_one]; rfl
  · exact runEsc_tier_invariant cs escInit rfl

/-- Claim C7: on the first turn of a session (empty performance
history), `generate_and_deliver_joke` submits exactly one conversation
item, `PLANNED_JOKE:` followed by the pre-planned opener or — when
planning failed — the hardcoded fallback opener; the incoming audience
reaction and audience context play no role in the submitted input. -/
theorem cold_open_sole_input (plannedOpener : Option String)
    (plannedJoke : Option String) (ac : Option AudienceContext)
    (audienceReaction : Option String) :
    conversationInputs [] plannedOpener plannedJoke ac audienceReaction
      = ["PLANNED_JOKE: " ++ pyOrOpt plannedOpener fallbackOpenerText] := by
  simp [conversationInputs]

/-- Claim C6, counterexample: the verdict string `"wow"` is not one of
the recognised verdicts, yet the auto-generate mapping silently folds it
into the default label `"neutral"`, and `map_sound` silently folds it
into a rationale-derived summary; no `UnknownVerdict` error is raised
anywhere (both functions are total), contradicting the claim that
classification of an unmapped verdict fails loudly before mutating
state. -/
theorem unknown_verdict_counterexample :
    mapVerdictLabel
        ⟨Option.none, Option.none, Option.none, Option.none,
          some "wow", Option.none, Option.none⟩ = "neutral"
      ∧ map_sound (some "wow") (some "They laughed hard") = "laughter" := by
  constructor
  · decide
  · decide

/-- Claim C6, amended: classification of a verdict string that is not
one of the recognised values does not fail at all — `generate_joke_auto`
silently folds it into the sample's `reaction_type` (defaulting to
`"neutral"`), so unmapped verdicts are absorbed rather than rejected. -/
theorem unknown_verdict_folds_to_default (d : AudienceContext)
    (h1 : d.verdict ≠ some "hit") (h2 : d.verdict ≠ some "mixed")
    (h3 : d.verdict ≠ some "miss") (h4 : d.verdict ≠ some "uncertain") :
    mapVerdictLabel d = d.reaction_type.getD "neutral" := by
  simp [mapVerdictLabel, h1, h2, h3, h4]

theorem unknown_verdict_folds_to_default_witness :
    mapVerdictLabel
        ⟨Option.none, Option.none, Option.none, Option.none,
          some "thunderous", some "warm", Option.none⟩
      = (some "warm" : Option String).getD "neutral" :=
  unknown_verdict_folds_to_default
    ⟨Option.none, Option.none, Option.none, Option.none,
      some "thunderous", some "warm", Option.none⟩
    (by decide) (by decide) (by decide) (by decide)

/-- Claim C10: the statistics record contains `engagement_rate` exactly
when the performance history is nonempty; with an empty history it is
exactly the three-field record, and the `/stats` endpoint — whose
response model requires `engagement_rate` — fails on it. -/
theorem stats_engagement_rate_presence (history : List PyDict) :
    ((dlookup "engagement_rate" (get_performance_stats history)).isSome
        ↔ history ≠ [])
      ∧ (history = [] →
          get_performance_stats history
            = [("total_jokes", PyVal.int 0),
               ("themes", PyVal.strList []),
               ("audience_engagement", PyVal.str "unknown")])
      ∧ (history = [] →
          get_stats history = Except.error "HTTP 500: validation error") := by
  cases history with
  | nil =>
    refine ⟨?_, fun _ => by simp [get_performance_stats], fun _ => rfl⟩
    simp [get_performance_stats, dlookup]
  | cons j js =>
    refine ⟨?_, fun h => by simp at h, fun h => by simp at h⟩
    simp [get_performance_stats, dlookup]

theorem stats_engagement_rate_presence_witness :
    get_stats ([] : List PyDict) = Except.error "HTTP 500: validation error" :=
  (stats_engagement_rate_presence []).2.2 rfl

theorem dlookup_collect_text (events : List RtEvent) (timedOut : Bool)
    (now : String) :
    dlookup "text" (collect_joke_response events timedOut now)
      = some (PyVal.str (collectFinalText events timedOut)) := by
  simp [collect_joke_response, dlookup]

/-- Claim C2: when the collection phase yields an empty final text, the
turn raises (`ValueError`, the spec's `NoContent`) and the performance
history is unchanged; when the final text is nonempty, the artifact —
carrying that text and the theme — is appended to the history and
returned. -/
theorem empty_text_fails_turn (es : List RtEvent) (timedOut : Bool)
    (now : String) (history : List PyDict) (ar : Option String)
    (theme : String) :
    (collectFinalText es timedOut = "" →
        applyCollectedJoke history (collect_joke_response es timedOut now)
            ar theme
          = (history, Except.error "No text generated by Realtime API"))
      ∧ (collectFinalText es timedOut ≠ "" →
          ∃ turnRec,
            applyCollectedJoke history (collect_joke_response es timedOut now)
                ar theme
              = (history ++ [turnRec], Except.ok turnRec)
            ∧ dlookup "text" turnRec
              = some (PyVal.str (collectFinalText es timedOut))
            ∧ dlookup "theme" turnRec = some (PyVal.str theme)) := by
  have htext := dlookup_collect_text es timedOut now
  constructor
  · intro h
    simp [applyCollectedJoke, htext, pyTruthy, h]
  · intro h
    simp only [applyCollectedJoke, htext, pyTruthy]
    rw [if_pos (by simp [h])]
    refine ⟨_, rfl, ?_, ?_⟩
    · simp [collect_joke_response, dictSet, dlookup]
    · simp [collect_joke_response, dictSet, dlookup]

theorem empty_text_fails_turn_witness :
    ∃ turnRec,
      applyCollectedJoke []
          (collect_joke_response
            [RtEvent.textDelta "Hot take incoming.", RtEvent.responseDone]
            false "t0")
          (some "neutral") "tech"
        = ([] ++ [turnRec], Except.ok turnRec)
      ∧ dlookup "text" turnRec
        = some (PyVal.str (collectFinalText
            [RtEvent.textDelta "Hot take incoming.", RtEvent.responseDone]
            false))
      ∧ dlookup "theme" turnRec = some (PyVal.str "tech") :=
  (empty_text_fails_turn
    [RtEvent.textDelta "Hot take incoming.", RtEvent.responseDone]
    false "t0" [] (some "neutral") "tech").2 (by decide)

theorem collectRun_textParts (es : List RtEvent) : ∀ st : CollectState,
    (collectRun st es).jokeTextParts
      = st.jokeTextParts ++ textDeltasOf (processedOf es) := by
  induction es with
  | nil => intro st; simp [collectRun, processedOf, textDeltasOf]
  | cons e es ih =>
    intro st
    cases e <;>
      simp [collectRun, collectStep, isTerminalEvent, processedOf,
        textDeltasOf, List.filterMap_cons, ih] <;>
      split <;> simp [ih]

theorem collectRun_transcriptParts (es : List RtEvent) : ∀ st : CollectState,
    (collectRun st es).transcriptParts
      = st.transcriptParts ++ transcriptDeltasOf (processedOf es) := by
  induction es with
  | nil => intro st; simp [collectRun, processedOf, transcriptDeltasOf]
  | cons e es ih =>
    intro st
    cases e <;>
      simp [collectRun, collectStep, isTerminalEvent, processedOf,
        transcriptDeltasOf, List.filterMap_cons, ih] <;>
      split <;> simp [ih]

theorem collectRun_audio (es : List RtEvent) : ∀ st : CollectState,
    (collectRun st es).audioChunks.flatten
      = st.audioChunks.flatten ++ audioBytesOf (processedOf es) := by
  induction es with
  | nil => intro st; simp [collectRun, processedOf, audioBytesOf]
  | cons e es ih =>
    intro st
    cases e <;>
      simp [collectRun, collectStep, isTerminalEvent, processedOf,
        audioBytesOf, List.filterMap_cons, ih] <;>
      split <;> simp_all [audioBytesOf, ih]

theorem collectRun_transcriptDone (es : List RtEvent) : ∀ st : CollectState,
    (collectRun st es).transcriptDoneVal
      = lastTranscriptDonePayload st.transcriptDoneVal (processedOf es) := by
  induction es with
  | nil => intro st; simp [collectRun, processedOf, lastTranscriptDonePayload]
  | cons e es ih =>
    intro st
    cases e <;>
      simp [collectRun, collectStep, isTerminalEvent, processedOf,
        lastTranscriptDonePayload, ih] <;>
      split <;> simp [ih]

/-- Specification-side recomputation of the `text_done` closure cell:
it tracks the delta parts seen so far because a `textDone` with an empty
payload stores their concatenation. -/
def textDoneSim (parts : List String) (cur : Option String) :
    List RtEvent → Option String
  | [] => cur
  | RtEvent.textDelta d :: es => textDoneSim (parts ++ [d]) cur es
  | RtEvent.textDone t :: es =>
      textDoneSim parts (some (if t = "" then String.join parts else t)) es
  | _ :: es => textDoneSim parts cur es

theorem collectRun_textDone (es : List RtEvent) : ∀ st : CollectState,
    (collectRun st es).textDoneVal
      = textDoneSim st.jokeTextParts st.textDoneVal (processedOf es) := by
  induction es with
  | nil => intro st; simp [collectRun, processedOf, textDoneSim]
  | cons e es ih =>
    intro st
    cases e <;>
      simp [collectRun, collectStep, isTerminalEvent, processedOf,
        textDoneSim, ih] <;>
      split <;> simp [ih]

theorem lastTextDonePayload_ext (l : List RtEvent) : ∀ cur : Option String,
    lastTextDonePayload cur l
      = match lastTextDonePayload Option.none l with
        | some w => some w
        | Option.none => cur := by
  induction l with
  | nil => intro cur; simp [lastTextDonePayload]
  | cons e l ih =>
    intro cur
    cases e with
    | textDone t =>
      simp only [lastTextDonePayload]
      rw [ih (some t)]
      cases h : lastTextDonePayload Option.none l <;> simp
    | _ =>
      all_goals simp only [lastTextDonePayload]; exact ih cur

theorem textDoneSim_of_no_done (l : List RtEvent)
    (h : lastTextDonePayload Option.none l = Option.none) :
    ∀ parts cur, textDoneSim parts cur l = cur := by
  induction l with
  | nil => intro parts cur; simp [textDoneSim]
  | cons e l ih =>
    intro parts cur
    cases e with
    | textDone t =>
      exfalso
      simp only [lastTextDonePayload] at h
      rw [lastTextDonePayload_ext] at h
      cases h' : lastTextDonePayload Option.none l <;> simp [h'] at h
    | _ =>
      all_goals
        simp only [lastTextDonePayload] at h
        simp only [textDoneSim]
        exact ih h _ _

theorem textDoneSim_of_last_done (l : List RtEvent) : ∀ (v : String),
    lastTextDonePayload Option.none l = some v → v ≠ "" →
    ∀ parts cur, textDoneSim parts cur l = some v := by
  induction l with
  | nil => intro v h; simp [lastTextDonePayload] at h
  | cons e l ih =>
    intro v h hv parts cur
    cases e with
    | textDone t =>
      simp only [lastTextDonePayload] at h
      rw [lastTextDonePayload_ext] at h
      simp only [textDoneSim]
      cases h' : lastTextDonePayload Option.none l with
      | some w =>
        rw [h'] at h
        simp at h
        subst h
        exact ih w h' hv _ _
      | none =>
        rw [h'] at h
        simp at h
        subst h
        rw [textDoneSim_of_no_done l h', if_neg hv]
    | _ =>
      all_goals
        simp only [lastTextDonePayload] at h
        simp only [textDoneSim]
        exact ih v h hv _ _

theorem processedOf_all (es : List RtEvent)
    (h : es.all (fun e => !isTerminalEvent e) = true) : processedOf es = es := by
  induction es with
  | nil => rfl
  | cons e es ih => simp_all [processedOf]

/-- Claim C3, amended: a stream with no done/completed (and no error)
event that runs into the deadline makes the collector return — not
raise — a dictionary whose `text` is the concatenated text deltas
(falling back to the concatenated transcript deltas) and whose `audio`
is the concatenated audio accumulated before the deadline; the
dictionary carries no `timedOut` flag (the timeout is only logged). -/
theorem timeout_returns_accumulated (es : List RtEvent) (now : String)
    (h : es.all (fun e => !isTerminalEvent e) = true) :
    dlookup "text" (collect_joke_response es true now)
        = some (PyVal.str (pyStrOr (String.join (textDeltasOf es))
            (String.join (transcriptDeltasOf es))))
      ∧ dlookup "audio" (collect_joke_response es true now)
        = some (PyVal.bytes (audioBytesOf es))
      ∧ dlookup "has_audio" (collect_joke_response es true now)
        = some (PyVal.bool (decide (0 < (audioBytesOf es).length)))
      ∧ dlookup "timedOut" (collect_joke_response es true now)
        = Option.none := by
  have hp := processedOf_all es h
  have h1 : (collectRun initCollect es).jokeTextParts = textDeltasOf es := by
    have t := collectRun_textParts es initCollect
    rw [hp] at t
    simpa [initCollect] using t
  have h2 : (collectRun initCollect es).transcriptParts
      = transcriptDeltasOf es := by
    have t := collectRun_transcriptParts es initCollect
    rw [hp] at t
    simpa [initCollect] using t
  have h3 : (collectRun initCollect es).audioChunks.flatten
      = audioBytesOf es := by
    have t := collectRun_audio es initCollect
    rw [hp] at t
    simpa [initCollect] using t
  refine ⟨?_, ?_, ?_, ?_⟩
  · rw [dlookup_collect_text]
    simp [collectFinalText, h1, h2]
  · simp [collect_joke_response, dlookup, collectAudio, h3]
  · simp [collect_joke_response, dlookup, collectAudio, h3]
  · simp [collect_joke_response, dlookup]

theorem timeout_returns_accumulated_witness :
    dlookup "timedOut"
        (collect_joke_response
          [RtEvent.textDelta "He", RtEvent.audioDelta [1, 2]] true "t1")
      = Option.none :=
  (timeout_returns_accumulated
    [RtEvent.textDelta "He", RtEvent.audioDelta [1, 2]] "t1" (by decide)).2.2.2

/-- Claim C3, counterexample: on a stream that never emits done before
the deadline, the collector's result carries neither a `timedOut` key
nor a `transcript` key, refuting the claim that the accumulated
transcript is returned together with `timedOut=true`. -/
theorem timeout_result_lacks_claimed_fields :
    dlookup "timedOut"
        (collect_joke_response
          [RtEvent.textDelta "Yo", RtEvent.transcriptDelta "hi"] true "t0")
      = Option.none
    ∧ dlookup "transcript"
        (collect_joke_response
          [RtEvent.textDelta "Yo", RtEvent.transcriptDelta "hi"] true "t0")
      = Option.none := by
  constructor
  · decide
  · decide

/-- Claim C4, amended: the single returned `text` field resolves, on
normal termination, to the explicit non-empty `text.done` value, else to
the in-order concatenation of the text deltas, else to the transcript
(its own `transcript.done` override, else its delta concatenation); on
deadline expiry the done overrides are ignored and only the delta
concatenations are used; the result carries no separate `transcript`
field, so the fallback exists only in the transcript-to-text
direction. -/
theorem strJoin_nil : String.join ([] : List String) = "" := rfl

theorem final_text_resolution (es : List RtEvent) (now : String)
    (timedOut : Bool) :
    dlookup "transcript" (collect_joke_response es timedOut now) = Option.none
      ∧ (∀ v, timedOut = false →
          lastTextDonePayload Option.none (processedOf es) = some v →
          v ≠ "" →
          dlookup "text" (collect_joke_response es timedOut now)
            = some (PyVal.str v))
      ∧ (timedOut = false →
          lastTextDonePayload Option.none (processedOf es) = Option.none →
          String.join (textDeltasOf (processedOf es)) ≠ "" →
          dlookup "text" (collect_joke_response es timedOut now)
            = some (PyVal.str (String.join (textDeltasOf (processedOf es)))))
      ∧ (timedOut = true →
          String.join (textDeltasOf (processedOf es)) ≠ "" →
          dlookup "text" (collect_joke_response es timedOut now)
            = some (PyVal.str (String.join (textDeltasOf (processedOf es)))))
      ∧ (textDeltasOf (processedOf es) = [] →
          lastTextDonePayload Option.none (processedOf es) = Option.none →
          dlookup "text" (collect_joke_response es timedOut now)
            = some (PyVal.str
                (if timedOut then
                  String.join (transcriptDeltasOf (processedOf es))
                else
                  pyOrOpt (lastTranscriptDonePayload Option.none (processedOf es))
                    (String.join (transcriptDeltasOf (processedOf es)))))) := by
  have h1 : (collectRun initCollect es).jokeTextParts
      = textDeltasOf (processedOf es) := by
    simpa [initCollect] using collectRun_textParts es initCollect
  have h2 : (collectRun initCollect es).transcriptParts
      = transcriptDeltasOf (processedOf es) := by
    simpa [initCollect] using collectRun_transcriptParts es initCollect
  have h4 : (collectRun initCollect es).textDoneVal
      = textDoneSim [] Option.none (processedOf es) := by
    simpa [initCollect] using collectRun_textDone es initCollect
  have h5 : (collectRun initCollect es).transcriptDoneVal
      = lastTranscriptDonePayload Option.none (processedOf es) := by
    simpa [initCollect] using collectRun_transcriptDone es initCollect
  refine ⟨?_, ?_, ?_, ?_, ?_⟩
  · simp [collect_joke_response, dlookup]
  · intro v ht hlast hv
    subst ht
    rw [dlookup_collect_text]
    have hd := textDoneSim_of_last_done (processedOf es) v hlast hv
      ([] : List String) Option.none
    rw [← h4] at hd
    simp [collectFinalText, hd, pyOrOpt, pyStrOr, hv]
  · intro ht hnone hne
    subst ht
    rw [dlookup_collect_text]
    have hd := textDoneSim_of_no_done (processedOf es) hnone
      ([] : List String) Option.none
    rw [← h4] at hd
    simp [collectFinalText, hd, pyOrOpt, pyStrOr, h1, hne]
  · intro ht hne
    subst ht
    rw [dlookup_collect_text]
    simp [collectFinalText, pyStrOr, h1, hne]
  · intro hdel hnone
    rw [dlookup_collect_text]
    have hd := textDoneSim_of_no_done (processedOf es) hnone
      ([] : List String) Option.none
    rw [← h4] at hd
    cases timedOut with
    | true => simp [collectFinalText, pyStrOr, h1, h2, hdel, strJoin_nil]
    | false =>
      simp [collectFinalText, hd, pyOrOpt, pyStrOr, h1, h2, h5, hdel,
        strJoin_nil]

theorem final_text_resolution_witness :
    dlookup "text"
        (collect_joke_response
          [RtEvent.textDelta "Ha", RtEvent.responseDone] false "t2")
      = some (PyVal.str (String.join (textDeltasOf (processedOf
          [RtEvent.textDelta "Ha", RtEvent.responseDone])))) :=
  (final_text_resolution
      [RtEvent.textDelta "Ha", RtEvent.responseDone] "t2" false).2.2.1
    rfl (by decide) (by decide)

/-- Claim C4, counterexample: with only transcript content the result
carries no final transcript at all (there is no `transcript` key to fall
back into), and on a timed-out stream an explicit non-empty `text.done`
value is discarded — the final text is empty, not the done value —
refuting both the claimed bidirectional fallback and the claimed
resolution order for every stream. -/
theorem final_text_resolution_counterexample :
    dlookup "transcript"
        (collect_joke_response
          [RtEvent.transcriptDelta "Hello.", RtEvent.responseDone] false "t3")
      = Option.none
    ∧ dlookup "text"
        (collect_joke_response [RtEvent.textDone "Final"] true "t3")
      = some (PyVal.str "") := by
  constructor
  · decide
  · decide

theorem pyOrOpt_some_empty (v : String) : pyOrOpt (some v) "" = v := by
  by_cases h : v = "" <;> simp [pyOrOpt, h]

/-- Claim C8, amended: the fuser maps verdicts through fixed tables —
the scenario audio `miss` with visual `scattered` (routed through the
`/generate/auto` label mapping) fuses to vibe `quiet`, faces `attention
scattered`, sound `quiet`; the four tabulated audio verdicts map to
their fixed summaries for every rationale; and an untabulated verdict
falls back to the rationale keyword scan, else passes through
lower-cased (`'neutral'` when empty) rather than raw. -/
theorem fuser_fixed_tables :
    (mapVerdictLabel
        ⟨Option.none, some ⟨some "scattered", Option.none⟩,
          some ⟨some "miss", Option.none, some "silence detected"⟩,
          Option.none, some "miss", some "neutral", some "silence detected"⟩
        = "silence / groan"
      ∧ format_crowd_description
        (some ⟨Option.none, some ⟨some "scattered", Option.none⟩,
          some ⟨some "miss", Option.none, some "silence detected"⟩,
          Option.none, some "miss", some "neutral", some "silence detected"⟩)
        (some "silence / groan")
        = "vibe: quiet; faces: attention scattered; sound: quiet.")
    ∧ (∀ r : Option String,
        map_sound (some "hit") r = "laughter heard"
        ∧ map_sound (some "mixed") r = "light laughs"
        ∧ map_sound (some "miss") r = "quiet"
        ∧ map_sound (some "uncertain") r = "unclear")
    ∧ (∀ (v : String) (r : Option String),
        strLower v ≠ "hit" → strLower v ≠ "mixed" → strLower v ≠ "miss" →
        strLower v ≠ "uncertain" →
        (strContains (strLower (pyOrOpt r "")) "laugh" = true →
            map_sound (some v) r = "laughter")
        ∧ (strContains (strLower (pyOrOpt r "")) "laugh" = false →
            strContains (strLower (pyOrOpt r "")) "silent" = true
              ∨ strContains (strLower (pyOrOpt r "")) "quiet" = true →
            map_sound (some v) r = "quiet")
        ∧ (strContains (strLower (pyOrOpt r "")) "laugh" = false →
            strContains (strLower (pyOrOpt r "")) "silent" = false →
            strContains (strLower (pyOrOpt r "")) "quiet" = false →
            map_sound (some v) r = pyStrOr (strLower v) "neutral")) := by
  refine ⟨⟨by decide, by decide⟩, ?_, ?_⟩
  · intro r
    refine ⟨rfl, rfl, rfl, rfl⟩
  · intro v r h1 h2 h3 h4
    refine ⟨?_, ?_, ?_⟩
    · intro hL
      simp [map_sound, pyOrOpt_some_empty, h1, h2, h3, h4, hL]
    · intro hL hSQ
      rcases hSQ with hS | hQ
      · simp [map_sound, pyOrOpt_some_empty, h1, h2, h3, h4, hL, hS]
      · simp [map_sound, pyOrOpt_some_empty, h1, h2, h3, h4, hL, hQ]
    · intro hL hS hQ
      simp [map_sound, pyOrOpt_some_empty, h1, h2, h3, h4, hL, hS, hQ]

theorem fuser_fixed_tables_witness :
    map_sound (some "Roar") (some "dead air")
      = pyStrOr (strLower "Roar") "neutral" :=
  (fuser_fixed_tables.2.2 "Roar" (some "dead air")
      (by decide) (by decide) (by decide) (by decide)).2.2
    (by decide) (by decide) (by decide)

/-- Claim C8, counterexample: the untabulated audio verdict `"LOUD"`
(with no rationale keyword) is not passed through raw — the code
lower-cases it first, so the sound summary is `"loud"`, not `"LOUD"`. -/
theorem fuser_passthrough_not_raw :
    map_sound (some "LOUD") Option.none ≠ "LOUD"
      ∧ map_sound (some "LOUD") Option.none = "loud" := by
  constructor
  · decide
  · decide

theorem data_mk (l : List Char) : (String.mk l).data = l := rfl

theorem countP_dropWhile_le (p q : Char → Bool) (l : List Char) :
    (l.dropWhile q).countP p ≤ l.countP p := by
  induction l with
  | nil => simp
  | cons c l ih =>
    by_cases hq : q c
    · rw [List.dropWhile_cons, if_pos hq, List.countP_cons]
      exact le_trans ih (Nat.le_add_right _ _)
    · rw [List.dropWhile_cons, if_neg (by simp [hq])]

theorem countP_trimTrailing_le (p q : Char → Bool) (l : List Char) :
    (trimTrailing q l).countP p ≤ l.countP p := by
  induction l with
  | nil => simp [trimTrailing]
  | cons c l ih =>
    simp only [trimTrailing]
    split
    · simp
    · rw [List.countP_cons, List.countP_cons]
      exact Nat.add_le_add_right ih _

theorem countP_listTrim_le (p : Char → Bool) (l : List Char) :
    (listTrim l).countP p ≤ l.countP p :=
  le_trans (countP_trimTrailing_le p isWs _) (countP_dropWhile_le p isWs l)

theorem trimTrailing_concat (q : Char → Bool) (l : List Char) (c : Char)
    (h : q c = false) : trimTrailing q (l ++ [c]) = l ++ [c] := by
  induction l with
  | nil => simp [trimTrailing, h]
  | cons x l ih =>
    simp only [List.cons_append, trimTrailing, List.append_eq, ih]
    rw [if_neg (by simp)]

theorem dropWhile_concat_nonws (q : Char → Bool) (l : List Char) (c : Char)
    (h : q c = false) : ∃ pre, (l ++ [c]).dropWhile q = pre ++ [c] := by
  induction l with
  | nil => exact ⟨[], by simp [List.dropWhile_cons, h]⟩
  | cons x l ih =>
    by_cases hx : q x
    · obtain ⟨pre, hp⟩ := ih
      exact ⟨pre, by simp [List.dropWhile_cons, hx, hp]⟩
    · exact ⟨x :: l, by simp [List.dropWhile_cons, hx]⟩

theorem listTrim_concat (l : List Char) (c : Char) (h : isWs c = false) :
    ∃ pre, listTrim (l ++ [c]) = pre ++ [c] := by
  obtain ⟨pre, hp⟩ := dropWhile_concat_nonws isWs l c h
  exact ⟨pre, by rw [listTrim, hp, trimTrailing_concat _ _ _ h]⟩

theorem punct_not_ws (c : Char) (h : isTermPunct c = true) : isWs c = false := by
  simp only [isTermPunct, Bool.or_eq_true, decide_eq_true_eq] at h
  rcases h with (h | h) | h <;> subst h <;> decide

/-- Invariant of the sentences produced by the splitting loop: each has
at most one terminal punctuation mark, and ends with one unless it
contains none (the trailing remainder). -/
def SentProp (s : List Char) : Prop :=
  s.countP isTermPunct ≤ 1
    ∧ ((∃ pre c, s = pre ++ [c] ∧ isTermPunct c = true)
        ∨ s.countP isTermPunct = 0)

theorem splitSentences_inv (rest : List Char) : ∀ current : List Char,
    current.countP isTermPunct = 0 →
    ∀ s ∈ splitSentencesGo current rest, SentProp s := by
  induction rest with
  | nil =>
    intro current hc s hs
    simp only [splitSentencesGo] at hs
    split at hs
    · simp at hs
    · simp at hs
      subst hs
      have h0 : (listTrim current).countP isTermPunct = 0 :=
        Nat.le_zero.mp (hc ▸ countP_listTrim_le _ _)
      exact ⟨by omega, Or.inr h0⟩
  | cons c rest ih =>
    intro current hc s hs
    simp only [splitSentencesGo] at hs
    split at hs
    · rw [List.mem_append] at hs
      rcases hs with hs | hs
      · split at hs
        · simp at hs
        · simp at hs
          subst hs
          rename_i hpc _
          obtain ⟨pre, hp⟩ := listTrim_concat current c (punct_not_ws c hpc)
          have hcnt : (listTrim (current ++ [c])).countP isTermPunct ≤ 1 := by
            calc (listTrim (current ++ [c])).countP isTermPunct
                ≤ (current ++ [c]).countP isTermPunct :=
                  countP_listTrim_le _ _
              _ = 1 := by
                  rw [List.countP_append, hc]
                  simp [List.countP_cons, hpc]
          exact ⟨hcnt, Or.inl ⟨pre, c, hp, hpc⟩⟩
      · exact ih [] rfl s hs
    · rename_i hpc
      apply ih (current ++ [c]) _ s hs
      rw [List.countP_append, hc]
      simp [List.countP_cons, hpc]

theorem ensureEndPunct_keep (pre : List Char) (c : Char)
    (h : isTermPunct c = true) : ensureEndPunct (pre ++ [c]) = pre ++ [c] := by
  simp [ensureEndPunct, List.getLast?_concat, h]

theorem ensureEndPunct_props (l : List Char) (hne : l ≠ []) :
    ∃ pre c, ensureEndPunct l = pre ++ [c] ∧ isTermPunct c = true
      ∧ (ensureEndPunct l).countP isTermPunct
        ≤ l.countP isTermPunct + 1 := by
  obtain ⟨L, b, rfl⟩ : ∃ L b, l = L ++ [b] :=
    ⟨l.dropLast, l.getLast hne, (List.dropLast_append_getLast hne).symm⟩
  by_cases hb : isTermPunct b
  · exact ⟨L, b, ensureEndPunct_keep L b hb, hb, by
      rw [ensureEndPunct_keep L b hb]; omega⟩
  · have he : ensureEndPunct (L ++ [b]) = (L ++ [b]) ++ ['.'] := by
      simp [ensureEndPunct, List.getLast?_concat, hb]
    refine ⟨L ++ [b], '.', by rw [he], by decide, ?_⟩
    rw [he, List.countP_append]
    have : List.countP isTermPunct ['.'] = 1 := by decide
    omega

theorem outProps (ss : List (List Char)) (hinv : ∀ s ∈ ss, SentProp s) :
    (listTrim (joinSpace (ss.take 2))).countP isTermPunct ≤ 2
      ∧ ((∃ pre c, listTrim (joinSpace (ss.take 2)) = pre ++ [c]
            ∧ isTermPunct c = true)
          ∨ (listTrim (joinSpace (ss.take 2))).countP isTermPunct ≤ 1) := by
  match ss with
  | [] => exact ⟨by decide, Or.inr (by decide)⟩
  | [a] =>
    obtain ⟨ha1, hEnds⟩ := hinv a (List.mem_singleton_self a)
    show (listTrim a).countP isTermPunct ≤ 2
      ∧ ((∃ pre c, listTrim a = pre ++ [c] ∧ isTermPunct c = true)
          ∨ (listTrim a).countP isTermPunct ≤ 1)
    rcases hEnds with ⟨pre, c, haeq, hc⟩ | ha0
    · obtain ⟨pre', hp'⟩ := listTrim_concat pre c (punct_not_ws c hc)
      subst haeq
      exact ⟨le_trans (countP_listTrim_le _ _) (by omega),
        Or.inl ⟨pre', c, hp', hc⟩⟩
    · exact ⟨le_trans (countP_listTrim_le _ _) (by omega),
        Or.inr (le_trans (countP_listTrim_le _ _) (by omega))⟩
  | a :: b :: tl =>
    obtain ⟨ha1, _⟩ := hinv a (by simp)
    obtain ⟨hb1, hbEnds⟩ := hinv b (by simp)
    show (listTrim (a ++ [' '] ++ b)).countP isTermPunct ≤ 2
      ∧ ((∃ pre c, listTrim (a ++ [' '] ++ b) = pre ++ [c]
            ∧ isTermPunct c = true)
          ∨ (listTrim (a ++ [' '] ++ b)).countP isTermPunct ≤ 1)
    have hcj : (a ++ [' '] ++ b).countP isTermPunct
        = a.countP isTermPunct + b.countP isTermPunct := by
      rw [List.countP_append, List.countP_append]
      have h0 : List.countP isTermPunct [' '] = 0 := by decide
      omega
    rcases hbEnds with ⟨pre, c, hbeq, hc⟩ | hb0
    · have hassoc : a ++ [' '] ++ b = (a ++ [' '] ++ pre) ++ [c] := by
        rw [hbeq]
        simp [List.append_assoc]
      obtain ⟨pre', hp'⟩ :=
        listTrim_concat (a ++ [' '] ++ pre) c (punct_not_ws c hc)
      rw [hassoc]
      refine ⟨le_trans (countP_listTrim_le _ _) ?_,
        Or.inl ⟨pre', c, hp', hc⟩⟩
      rw [← hassoc, hcj]
      omega
    · exact ⟨le_trans (countP_listTrim_le _ _) (by rw [hcj]; omega),
        Or.inr (le_trans (countP_listTrim_le _ _) (by rw [hcj]; omega))⟩

theorem ensureOutProps (out : List Char) (hne : out ≠ [])
    (h2 : out.countP isTermPunct ≤ 2)
    (hdi : (∃ pre c, out = pre ++ [c] ∧ isTermPunct c = true)
        ∨ out.countP isTermPunct ≤ 1) :
    (ensureEndPunct out).countP isTermPunct ≤ 2
      ∧ ∃ pre c, ensureEndPunct out = pre ++ [c] ∧ isTermPunct c = true := by
  rcases hdi with ⟨pre, c, ho, hc⟩ | hle
  · rw [ho, ensureEndPunct_keep pre c hc]
    exact ⟨ho ▸ h2, pre, c, rfl, hc⟩
  · obtain ⟨pre, c, he, hc, hcnt⟩ := ensureEndPunct_props out hne
    rw [he]
    exact ⟨by rw [← he]; omega, pre, c, rfl, hc⟩

/-- A nonempty sanitised plan is at most two sentences — it carries at
most two terminal punctuation marks — and ends with one. -/
theorem sanitize_props (t : String) (h : sanitize_planned_text t ≠ "") :
    (sanitize_planned_text t).data.countP isTermPunct ≤ 2
      ∧ ∃ pre c, (sanitize_planned_text t).data = pre ++ [c]
          ∧ isTermPunct c = true := by
  by_cases ht : t = ""
  · subst ht; simp [sanitize_planned_text] at h
  · simp only [sanitize_planned_text, if_neg ht, data_mk] at h ⊢
    have hinv := splitSentences_inv
      (replaceList ' ' [' '] [' ']
        (replaceList '\n' [] [' '] (stripFillers (listTrim t.data)))) [] rfl
    have hop := outProps
      (splitSentencesGo []
        (replaceList ' ' [' '] [' ']
          (replaceList '\n' [] [' '] (stripFillers (listTrim t.data))))) hinv
    refine ensureOutProps _ ?_ hop.1 hop.2
    intro h0
    apply h
    rw [h0]
    rfl

theorem countGuarded_append (a b : List PlanReq) :
    countGuarded (a ++ b) = countGuarded a + countGuarded b := by
  simp [countGuarded, List.filter_append]

theorem evalPlanResp_accepted (r : Option String) (s : String)
    (h : evalPlanResp r = AttemptOut.accepted s) :
    ∃ raw, r = some raw ∧ s = sanitize_planned_text (strTrim raw)
      ∧ s ≠ "" ∧ contains_reactive s = false := by
  cases r with
  | none => simp [evalPlanResp] at h
  | some raw =>
    refine ⟨raw, rfl, ?_⟩
    simp only [evalPlanResp] at h
    split at h
    · simp at h
    · split at h
      · simp at h
      · split at h
        · simp at h
        · rename_i hemp hreact
          simp only [AttemptOut.accepted.injEq] at h
          subst h
          exact ⟨rfl, hemp, by simpa using hreact⟩

theorem countGuarded_main (w : Bool) :
    countGuarded [PlanReq.mainReq w] = 0 := by
  cases w <;> decide

theorem countGuarded_main_guard (w : Bool) :
    countGuarded [PlanReq.mainReq w, PlanReq.guardedReq] = 1 := by
  cases w <;> decide

theorem planAttempt_some (rs : Nat → Option String) (n : Nat) (w : Bool)
    (s : String) (tr : List PlanReq) (m : Nat)
    (h : planAttempt rs n w = (some s, tr, m)) :
    (∃ k raw, k ≤ n + 1 ∧ rs k = some raw
        ∧ s = sanitize_planned_text (strTrim raw)
        ∧ s ≠ "" ∧ contains_reactive s = false)
      ∧ countGuarded tr ≤ 1 := by
  simp only [planAttempt] at h
  split at h
  · rename_i s1 hacc
    simp only [Prod.mk.injEq, Option.some.injEq] at h
    obtain ⟨he, htr, hm⟩ := h
    subst he
    obtain ⟨raw, hr, hs, hne, hcr⟩ := evalPlanResp_accepted _ _ hacc
    refine ⟨⟨n, raw, by omega, hr, hs, hne, hcr⟩, ?_⟩
    rw [← htr, countGuarded_main]
    omega
  · simp at h
  · split at h
    · rename_i s1 hacc
      simp only [Prod.mk.injEq, Option.some.injEq] at h
      obtain ⟨he, htr, hm⟩ := h
      subst he
      obtain ⟨raw, hr, hs, hne, hcr⟩ := evalPlanResp_accepted _ _ hacc
      refine ⟨⟨n + 1, raw, by omega, hr, hs, hne, hcr⟩, ?_⟩
      rw [← htr, countGuarded_main_guard]
    · simp at h

theorem planAttempt_none (rs : Nat → Option String) (n : Nat) (w : Bool)
    (tr : List PlanReq) (m : Nat)
    (h : planAttempt rs n w = (Option.none, tr, m)) :
    countGuarded tr ≤ 1 ∧ m ≤ n + 2 := by
  simp only [planAttempt] at h
  split at h
  · simp at h
  · simp only [Prod.mk.injEq] at h
    obtain ⟨_, htr, hm⟩ := h
    refine ⟨?_, by omega⟩
    rw [← htr, countGuarded_main]
    omega
  · split at h
    · simp at h
    · simp only [Prod.mk.injEq] at h
      obtain ⟨_, htr, hm⟩ := h
      refine ⟨?_, by omega⟩
      rw [← htr, countGuarded_main_guard]

/-- Claim C9, amended: every non-`None` planner result is the
sanitiser's output on one of the (at most four) oracle responses, is
nonempty, contains no banned phrase under case-insensitive substring
matching, ends in a terminal mark and carries at most two terminal
marks (at most two sentences); a rejected candidate gets one guarded
retry per payload variant, so up to two guarded retries (four requests
in all) occur before the planner degrades to `None`. -/
theorem planner_output_sanitized (rs : Nat → Option String) (s : String)
    (h : (plan_with_gpt5 rs).1 = some s) :
    s ≠ "" ∧ contains_reactive s = false
      ∧ s.data.countP isTermPunct ≤ 2
      ∧ (∃ pre c, s.data = pre ++ [c] ∧ isTermPunct c = true)
      ∧ (∃ n raw, n < 4 ∧ rs n = some raw
          ∧ s = sanitize_planned_text (strTrim raw))
      ∧ countGuarded (plan_with_gpt5 rs).2 ≤ 2 := by
  rcases hA : planAttempt rs 0 true with ⟨o1, tr1, m1⟩
  cases o1 with
  | some s1 =>
    have hps : plan_with_gpt5 rs = (some s1, tr1) := by
      simp [plan_with_gpt5, hA]
    rw [hps] at h ⊢
    simp only [Option.some.injEq] at h
    subst h
    obtain ⟨⟨k, raw, hk, hr, hs, hne, hcr⟩, hg⟩ := planAttempt_some rs 0 true s1 tr1 m1 hA
    obtain ⟨hc2, pre, c, hd, hc⟩ := sanitize_props (strTrim raw) (by rw [← hs]; exact hne)
    rw [← hs] at hc2 hd
    exact ⟨hne, hcr, hc2, ⟨pre, c, hd, hc⟩, ⟨k, raw, by omega, hr, hs⟩,
      le_trans hg (by omega)⟩
  | none =>
    have hm1 : m1 ≤ 2 := (planAttempt_none rs 0 true tr1 m1 hA).2
    have hg1 : countGuarded tr1 ≤ 1 := (planAttempt_none rs 0 true tr1 m1 hA).1
    rcases hB : planAttempt rs m1 false with ⟨o2, tr2, m2⟩
    cases o2 with
    | some s2 =>
      have hps : plan_with_gpt5 rs = (some s2, tr1 ++ tr2) := by
        simp [plan_with_gpt5, hA, hB]
      rw [hps] at h ⊢
      simp only [Option.some.injEq] at h
      subst h
      obtain ⟨⟨k, raw, hk, hr, hs, hne, hcr⟩, hg2⟩ :=
        planAttempt_some rs m1 false s2 tr2 m2 hB
      obtain ⟨hc2, pre, c, hd, hc⟩ :=
        sanitize_props (strTrim raw) (by rw [← hs]; exact hne)
      rw [← hs] at hc2 hd
      refine ⟨hne, hcr, hc2, ⟨pre, c, hd, hc⟩, ⟨k, raw, by omega, hr, hs⟩, ?_⟩
      rw [countGuarded_append]
      omega
    | none =>
      have hps : plan_with_gpt5 rs = (Option.none, tr1 ++ tr2) := by
        simp [plan_with_gpt5, hA, hB]
      rw [hps] at h
      simp at h

set_option maxRecDepth 8000 in
theorem planner_output_sanitized_witness :
    ("Cats judge me. Dogs forgive me." : String) ≠ ""
      ∧ contains_reactive "Cats judge me. Dogs forgive me." = false
      ∧ ("Cats judge me. Dogs forgive me." : String).data.countP
          isTermPunct ≤ 2
      ∧ (∃ pre c, ("Cats judge me. Dogs forgive me." : String).data
            = pre ++ [c] ∧ isTermPunct c = true)
      ∧ (∃ n raw, n < 4
          ∧ (some "Cats judge me. Dogs forgive me." : Option String)
            = some raw
          ∧ "Cats judge me. Dogs forgive me."
            = sanitize_planned_text (strTrim raw))
      ∧ countGuarded
          (plan_with_gpt5
            (fun _ => some "Cats judge me. Dogs forgive me.")).2 ≤ 2 :=
  planner_output_sanitized (fun _ => some "Cats judge me. Dogs forgive me.")
    "Cats judge me. Dogs forgive me." (by decide)

set_option maxRecDepth 8000 in
/-- Claim C9, counterexample: with an oracle that always returns a
banned-phrase candidate, the planner does not stop after one
negative-constraint retry — it issues two guarded retries (four
requests in all: the main and guarded request of each payload variant)
before degrading to `None`. -/
theorem planner_retries_twice_counterexample :
    (plan_with_gpt5 (fun _ => some "The crowd is loving this tonight.")).1
        = Option.none
      ∧ countGuarded
          (plan_with_gpt5
            (fun _ => some "The crowd is loving this tonight.")).2 = 2
      ∧ (plan_with_gpt5 (fun _ => some "The crowd is loving this tonight.")).2
        = [PlanReq.mainReq true, PlanReq.guardedReq,
           PlanReq.mainReq false, PlanReq.guardedReq] := by
  refine ⟨by decide, by decide, by decide⟩

theorem interleaves_empty_left : ∀ (t : List (Bool × TStep))
    (bs : List TStep), interleavesB t [] bs = true → t = tagT true bs := by
  intro t
  induction t with
  | nil =>
    intro bs h
    cases bs with
    | nil => rfl
    | cons b bs => simp [interleavesB] at h
  | cons hd tl ih =>
    intro bs h
    obtain ⟨b, x⟩ := hd
    cases b with
    | false => simp [interleavesB] at h
    | true =>
      cases bs with
      | nil => simp [interleavesB] at h
      | cons b' bs' =>
        simp only [interleavesB] at h
        split at h
        · rename_i hx
          subst hx
          rw [ih bs' h]
          rfl
        · exact absurd h (by simp)

theorem interleaves_empty_right : ∀ (t : List (Bool × TStep))
    (as : List TStep), interleavesB t as [] = true → t = tagT false as := by
  intro t
  induction t with
  | nil =>
    intro as h
    cases as with
    | nil => rfl
    | cons a as => simp [interleavesB] at h
  | cons hd tl ih =>
    intro as h
    obtain ⟨b, x⟩ := hd
    cases b with
    | true =>
      cases as with
      | nil => simp [interleavesB] at h
      | cons a' as' => simp [interleavesB] at h
    | false =>
      cases as with
      | nil => simp [interleavesB] at h
      | cons a' as' =>
        simp only [interleavesB] at h
        split at h
        · rename_i hx
          subst hx
          rw [ih as' h]
          rfl
        · exact absurd h (by simp)

theorem lockedLeft : ∀ (l : List ChanOp) (bs : List TStep)
    (t : List (Bool × TStep)),
    interleavesB t (l.map TStep.chan ++ [TStep.release])
        (TStep.acquire :: bs) = true →
    lockOkB (some false) t = true →
    t = tagT false (l.map TStep.chan ++ [TStep.release])
      ++ tagT true (TStep.acquire :: bs) := by
  intro l
  induction l with
  | nil =>
    intro bs t hI hL
    cases t with
    | nil => simp [interleavesB] at hI
    | cons hd t' =>
      obtain ⟨b, x⟩ := hd
      cases b with
      | false =>
        simp only [List.map_nil, List.nil_append, interleavesB] at hI
        split at hI
        · rename_i hx
          subst hx
          rw [interleaves_empty_left t' (TStep.acquire :: bs) hI]
          rfl
        · exact absurd hI (by simp)
      | true =>
        simp only [List.map_nil, List.nil_append, interleavesB] at hI
        split at hI
        · rename_i hx
          subst hx
          simp [lockOkB] at hL
        · exact absurd hI (by simp)
  | cons c l' ih =>
    intro bs t hI hL
    cases t with
    | nil => simp [interleavesB] at hI
    | cons hd t' =>
      obtain ⟨b, x⟩ := hd
      cases b with
      | false =>
        simp only [List.map_cons, List.cons_append, interleavesB] at hI
        split at hI
        · rename_i hx
          subst hx
          simp only [lockOkB] at hL
          rw [ih bs t' hI hL]
          rfl
        · exact absurd hI (by simp)
      | true =>
        simp only [List.map_cons, List.cons_append, interleavesB] at hI
        split at hI
        · rename_i hx
          subst hx
          simp [lockOkB] at hL
        · exact absurd hI (by simp)

theorem lockedRight : ∀ (l : List ChanOp) (as : List TStep)
    (t : List (Bool × TStep)),
    interleavesB t (TStep.acquire :: as)
        (l.map TStep.chan ++ [TStep.release]) = true →
    lockOkB (some true) t = true →
    t = tagT true (l.map TStep.chan ++ [TStep.release])
      ++ tagT false (TStep.acquire :: as) := by
  intro l
  induction l with
  | nil =>
    intro as t hI hL
    cases t with
    | nil => simp [interleavesB] at hI
    | cons hd t' =>
      obtain ⟨b, x⟩ := hd
      cases b with
      | true =>
        simp only [List.map_nil, List.nil_append, interleavesB] at hI
        split at hI
        · rename_i hx
          subst hx
          rw [interleaves_empty_right t' (TStep.acquire :: as) hI]
          rfl
        · exact absurd hI (by simp)
      | false =>
        simp only [List.map_nil, List.nil_append, interleavesB] at hI
        split at hI
        · rename_i hx
          subst hx
          simp [lockOkB] at hL
        · exact absurd hI (by simp)
  | cons c l' ih =>
    intro as t hI hL
    cases t with
    | nil => simp [interleavesB] at hI
    | cons hd t' =>
      obtain ⟨b, x⟩ := hd
      cases b with
      | true =>
        simp only [List.map_cons, List.cons_append, interleavesB] at hI
        split at hI
        · rename_i hx
          subst hx
          simp only [lockOkB] at hL
          rw [ih as t' hI hL]
          rfl
        · exact absurd hI (by simp)
      | false =>
        simp only [List.map_cons, List.cons_append, interleavesB] at hI
        split at hI
        · rename_i hx
          subst hx
          simp [lockOkB] at hL
        · exact absurd hI (by simp)

/-- Claim C1: single-flight — for any two invocations of
`generate_and_deliver_joke` (of any branch shapes) scheduled on the
event loop, every trace that interleaves their step sequences and
respects the `asyncio.Lock` semantics is one of the two sequential
compositions: all duplex-channel operations of one invocation (session
setup, `conversation.item.create` sends, `response.create`, and event
collection) complete before any of the other's start, so at most one
turn is ever in flight against the channel. -/
theorem single_flight_serialization (p0 p1 : TurnShape)
    (t : List (Bool × TStep))
    (hI : interleavesB t (turnSteps p0) (turnSteps p1) = true)
    (hL : lockOkB Option.none t = true) :
    t = tagT false (turnSteps p0) ++ tagT true (turnSteps p1)
      ∨ t = tagT true (turnSteps p1) ++ tagT false (turnSteps p0) := by
  cases t with
  | nil => simp [turnSteps, interleavesB] at hI
  | cons hd t' =>
    obtain ⟨b, x⟩ := hd
    cases b with
    | false =>
      simp only [turnSteps, interleavesB] at hI
      split at hI
      · rename_i hx
        subst hx
        simp only [lockOkB] at hL
        left
        rw [turnSteps, turnSteps,
          lockedLeft (turnChanOps p0)
            ((turnChanOps p1).map TStep.chan ++ [TStep.release]) t' hI hL]
        rfl
      · exact absurd hI (by simp)
    | true =>
      simp only [turnSteps, interleavesB] at hI
      split at hI
      · rename_i hx
        subst hx
        simp only [lockOkB] at hL
        right
        rw [turnSteps, turnSteps,
          lockedRight (turnChanOps p1)
            ((turnChanOps p0).map TStep.chan ++ [TStep.release]) t' hI hL]
        rfl
      · exact absurd hI (by simp)

theorem single_flight_serialization_witness :
    tagT false (turnSteps ⟨true, true, true, false, 2⟩)
        ++ tagT true (turnSteps ⟨false, false, false, true, 1⟩)
      = tagT false (turnSteps ⟨true, true, true, false, 2⟩)
        ++ tagT true (turnSteps ⟨false, false, false, true, 1⟩)
    ∨ tagT false (turnSteps ⟨true, true, true, false, 2⟩)
        ++ tagT true (turnSteps ⟨false, false, false, true, 1⟩)
      = tagT true (turnSteps ⟨false, false, false, true, 1⟩)
        ++ tagT false (turnSteps ⟨true, true, true, false, 2⟩) :=
  single_flight_serialization ⟨true, true, true, false, 2⟩
    ⟨false, false, false, true, 1⟩
    (tagT false (turnSteps ⟨true, true, true, false, 2⟩)
      ++ tagT true (turnSteps ⟨false, false, false, true, 1⟩))
    (by decide) (by decide)
